import Mathlib

/-!
Verification of the `manycore_parser` model-construction pipeline.

The development shallowly embeds `src/lib.rs` (the `ManycoreSystem` root
aggregate, `populate_attribute_map`, and the post-decode portion of
`ManycoreSystem::parse_file`, lines 131-206) and `src/router.rs`.

Conventions of the embedding:
- Rust machine integers (`u8`, `u16`, `u64`, `usize`) are `Nat`; wherever the
  source truncates (`i as u8`) or can panic (usize subtraction underflow,
  `%` by zero, out-of-bounds indexing, `unwrap`), the embedding makes that
  explicit (`% 256`, `Option`-valued steps).
- `std::collections::HashMap` is observed by the source only through
  `insert`/`contains_key`/lookup; it is embedded as an association list with
  replace-or-append insertion (`hmInsert`), which is extensionally faithful
  for those operations.
- `std::collections::BTreeMap<String, String>` attribute bags are embedded as
  the list of entries in the map's iteration order (ascending keys).
- File reading and XML decoding (`parse_file` lines 127-129) are external I/O
  and the external `quick_xml` collaborator; the decoded document is the
  embedded function's input.  The `Option` result of the embedded
  `parse_file` models panics of the derivation code itself.
- The modules `cores.rs`, `fifos.rs`, `graph.rs`, `routing.rs`,
  `sink_source.rs` are plain data declarations not present under `src/`;
  their shapes are modelled from the spec and from their usage in
  `lib.rs` (constructors and field accesses in the `can_parse` test).
  A core's channel set (`FIFOs`) is never read by the construction pipeline
  and is omitted.
-/

namespace Manycore

/-- `AttributeType` (lib.rs lines 30-35): the only attribute kinds. -/
inductive AttributeType where
  | text
  | number
deriving DecidableEq

/-- Modelled from the spec: the fixed catalogue of routing-algorithm names
(`routing.rs` is not under `src/`; §9 of the spec calls it a process-wide
constant list, and the test observes the name "RowFirst").  Only the fact
that it is a fixed constant matters to the claims, not its contents. -/
inductive RoutingAlgorithms where
  | rowFirst
  | columnFirst
deriving DecidableEq

/-- Modelled from the spec: `SUPPORTED_ALGORITHMS` (used at lib.rs line 201),
the immutable catalogue constant. -/
def SUPPORTED_ALGORITHMS : List RoutingAlgorithms :=
  [RoutingAlgorithms.rowFirst, RoutingAlgorithms.columnFirst]

/-- `Router` (router.rs lines 12-25): the derived owning-core id (not part of
the XML) plus the open attribute bag. -/
structure Router where
  id : Nat := 0
  other_attributes : Option (List (String × String)) := none
deriving DecidableEq

/-- `Core` (cores.rs, not under `src/`): modelled from the spec (§3) and from
`Core::new(id, router, allocated_task, fifos, other_attributes)` in the
lib.rs test.  The channel set (`fifos`) is never read by `parse_file` and is
omitted.  `id` is a `u8` value, `allocated_task` a `u16` value (see
`task_core_map: HashMap<u16, usize>` at lib.rs line 101). -/
structure Core where
  id : Nat := 0
  router : Router := {}
  allocated_task : Option Nat := none
  other_attributes : Option (List (String × String)) := none
deriving DecidableEq

/-- `Neighbour` (cores.rs, not under `src/`): modelled from usage
`Neighbour::new(Some(idx))` at lib.rs lines 150-165. -/
structure Neighbour where
  id : Option Nat := none
deriving DecidableEq

/-- `Neighbours` (cores.rs, not under `src/`): modelled from usage at lib.rs
lines 146-168 and `Neighbours::new(top, right, bottom, left)` in the test
(lines 518-528).  `Neighbours::default()` has every field absent. -/
structure Neighbours where
  top : Option Neighbour := none
  right : Option Neighbour := none
  bottom : Option Neighbour := none
  left : Option Neighbour := none
deriving DecidableEq

/-- `Task` (graph.rs, not under `src/`): modelled from the spec (§3,
identifier + workload cost) and `Task::new(id, cost)` in the test. -/
structure Task where
  id : Nat := 0
  cost : Nat := 0
deriving DecidableEq

/-- `Edge` (graph.rs, not under `src/`): modelled from the spec (§3) and
`Edge::new(source, destination, weight)` in the test. -/
structure Edge where
  source : Nat := 0
  destination : Nat := 0
  weight : Nat := 0
deriving DecidableEq

/-- `TaskGraph` (graph.rs, not under `src/`): modelled from the spec (§3). -/
structure TaskGraph where
  tasks : List Task := []
  edges : List Edge := []
deriving DecidableEq

/-- `SinkSourceDirection` (sink_source.rs, not under `src/`): modelled from
the test (`SinkSourceDirection::North`, `::East`). -/
inductive SinkSourceDirection where
  | north
  | south
  | east
  | west
deriving DecidableEq

/-- `Source` (sink_source.rs, not under `src/`): modelled from
`Source::new(coordinate, direction)` in the test. -/
structure Source where
  coordinate : Nat := 0
  direction : SinkSourceDirection := SinkSourceDirection.north
deriving DecidableEq

/-- `Sink` (sink_source.rs, not under `src/`): modelled from
`Sink::new(coordinate, direction)` in the test. -/
structure Sink where
  coordinate : Nat := 0
  direction : SinkSourceDirection := SinkSourceDirection.north
deriving DecidableEq

/-- `ConfigurableAttributes` (lib.rs lines 38-46): the attribute schema
surfaced to the renderer.  It has exactly a core registry, a router
registry, the algorithm catalogue, the observed algorithm and a
sinks/sources presence flag - there is no channel registry. -/
structure ConfigurableAttributes where
  core : List (String × AttributeType) := []
  router : List (String × AttributeType) := []
  algorithms : List RoutingAlgorithms := []
  observed_algorithm : Option String := none
  sinks_sources : Bool := false
deriving DecidableEq

/-- `ManycoreSystem` (lib.rs lines 48-106).  `sources` and `sinks` are
`BTreeMap<usize, _>` keyed collections; `connections` and `task_core_map`
are the derived `HashMap`s (empty after decode, `#[serde(skip)]`). -/
structure ManycoreSystem where
  xmlns : String := ""
  xmlns_si : String := ""
  xsi_schema_location : String := ""
  rows : Nat := 0
  columns : Nat := 0
  routing_algo : Option String := none
  sources : List (Nat × Source) := []
  sinks : List (Nat × Sink) := []
  task_graph : TaskGraph := {}
  cores : List Core := []
  connections : List (Nat × Neighbours) := []
  task_core_map : List (Nat × Nat) := []
  configurable_attributes : ConfigurableAttributes := {}
deriving DecidableEq

/-- `HashMap::contains_key` on the association-list embedding. -/
def hmContains {κ α : Type} [DecidableEq κ] : List (κ × α) → κ → Bool
  | [], _ => false
  | p :: rest, k => p.1 = k || hmContains rest k

/-- `HashMap::insert` on the association-list embedding: replace the value
of an existing key in place, otherwise append the new entry. -/
def hmInsert {κ α : Type} [DecidableEq κ] (m : List (κ × α)) (k : κ) (v : α) :
    List (κ × α) :=
  if hmContains m k then m.map (fun p => if p.1 = k then (k, v) else p)
  else m ++ [(k, v)]

/-- `HashMap` lookup on the association-list embedding (the value of the
entry carrying the key, if any). -/
def hmLookup {κ α : Type} [DecidableEq κ] : List (κ × α) → κ → Option α
  | [], _ => none
  | p :: rest, k => if p.1 = k then some p.2 else hmLookup rest k

/-- Rust `str::parse::<u64>()` (used at lib.rs line 116): an optional leading
plus sign followed by at least one ASCII decimal digit, with the value
required to fit in 64 bits; anything else is an error (`none`). -/
def parseU64 (s : String) : Option Nat :=
  let ds := match s.data with
    | '+' :: rest => rest
    | cs => cs
  if ds.isEmpty then none
  else if ds.all (fun c => c.isDigit) then
    let n := ds.foldl (fun acc c => acc * 10 + (c.toNat - 48)) 0
    if n < 2 ^ 64 then some n else none
  else none

/-- The `WithXMLAttributes` trait (lib.rs lines 23-27), restricted to the one
method the construction pipeline uses (`other_attributes`); the two source
files disagree on where the trait's `id` accessor lives (lib.rs puts it in
this trait, router.rs implements a separate `WithID`), and neither `id` nor
`variant` is called by the pipeline. -/
class WithXMLAttributes (α : Type) where
  other_attributes : α → Option (List (String × String))

instance : WithXMLAttributes Core :=
  ⟨Core.other_attributes⟩

instance : WithXMLAttributes Router :=
  ⟨Router.other_attributes⟩

/-- `ManycoreSystem::populate_attribute_map` (lib.rs lines 109-125): walk the
item's attribute bag; for each key not yet in the map, classify its value
(`Number` when it parses as a `u64`, `Text` otherwise) and record it; keys
already present are left untouched. -/
def populate_attribute_map {α : Type} [WithXMLAttributes α] (item : α)
    (map : List (String × AttributeType)) : List (String × AttributeType) :=
  match WithXMLAttributes.other_attributes item with
  | none => map
  | some other_attributes =>
    other_attributes.foldl
      (fun m kv =>
        if hmContains m kv.1 then m
        else
          hmInsert m kv.1
            (match parseU64 kv.2 with
             | some _ => AttributeType.number
             | none => AttributeType.text))
      map

/-- `{ c with router.id := i % 256 }`: the router-id assignment
`...router_mut().set_id(i as u8)` of lib.rs lines 176-182 applied to one
core (`as u8` truncates the index). -/
def withRouterId (i : Nat) (c : Core) : Core :=
  { c with router := { c.router with id := i % 256 } }

/-- The neighbour record built by one iteration of the `parse_file` loop
(lib.rs lines 142-166), mirroring the four conditional setter calls. -/
def neighboursFor (usize_columns last i : Nat) : Neighbours :=
  let right := i + 1
  let top := usize_columns ≤ i
  let bottom := i + usize_columns
  let n0 : Neighbours := {}
  let n1 := if right % usize_columns ≠ 0 then
      { n0 with right := some { id := some right } } else n0
  let n2 := if i % usize_columns ≠ 0 then
      { n1 with left := some { id := some (i - 1) } } else n1
  let n3 := if top then
      { n2 with top := some { id := some (i - usize_columns) } } else n2
  if bottom ≤ last then { n3 with bottom := some { id := some bottom } } else n3

/-- The mutable state threaded through the `for i in 0..=last` loop of
`parse_file` (lib.rs lines 140-183). -/
structure LoopState where
  connections : List (Nat × Neighbours)
  task_core_map : List (Nat × Nat)
  cores : List Core
deriving DecidableEq

/-- One iteration of the `parse_file` loop (lib.rs lines 141-183): derive
and insert the neighbour record, record the task placement, overwrite the
router id.  `none` models a panic: `%` by a zero `usize_columns`, the
out-of-bounds index `cores.list()[i]` (the later `get_mut(i).unwrap()`
fails under exactly the same condition and reuses the fetched core). -/
def loopStep (usize_columns last : Nat) (st : LoopState) (i : Nat) :
    Option LoopState :=
  if usize_columns = 0 then none
  else
    let neighbours := neighboursFor usize_columns last i
    let connections := hmInsert st.connections i neighbours
    match st.cores[i]? with
    | none => none
    | some core =>
      let task_core_map := match core.allocated_task with
        | some task_id => hmInsert st.task_core_map task_id i
        | none => st.task_core_map
      let cores := st.cores.set i (withRouterId i core)
      some ⟨connections, task_core_map, cores⟩

/-- The `for i in 0..=last` loop of `parse_file`, iterated over an explicit
index list. -/
def runLoop (usize_columns last : Nat) :
    List Nat → LoopState → Option LoopState
  | [], st => some st
  | i :: rest, st =>
    match loopStep usize_columns last st i with
    | none => none
    | some st1 => runLoop usize_columns last rest st1

/-- The pinned schema entries inserted manually before the scan
(lib.rs lines 189-191): `@id` and `@coordinates` in the core registry,
both `Text`. -/
def core_attributes_init : List (String × AttributeType) :=
  hmInsert (hmInsert [] "@id" AttributeType.text) "@coordinates" AttributeType.text

/-- The attribute scan of `parse_file` (lib.rs lines 188-196): one pass over
the (sorted, router-id-assigned) cores, feeding each core's bag into the
core registry and its router's bag into the (initially empty) router
registry. -/
def workout_attributes (cores : List Core) :
    List (String × AttributeType) × List (String × AttributeType) :=
  cores.foldl
    (fun p core =>
      (populate_attribute_map core p.1, populate_attribute_map core.router p.2))
    (core_attributes_init, [])

/-- The `sort_by(|me, other| me.id().cmp(&other.id()))` call of lib.rs lines
131-135: a stable sort of the cores, ascending by identifier (insertion
sort is stable, like Rust's `sort_by`). -/
def sortCores (cores : List Core) : List Core :=
  List.insertionSort (fun me other => me.id ≤ other.id) cores

/-- The post-decode portion of `ManycoreSystem::parse_file` (lib.rs lines
131-206).  Lines 127-129 (file read, XML decode) are external I/O whose
result - the decoded `ManycoreSystem` - is this function's argument.
Steps, in source order: sort the cores ascending by id; compute
`last = len - 1` (a `usize` subtraction that underflows - panics - on an
empty core list); run the derivation loop; store the task-core map; work
out the attribute registries.  `none` models a panic of the derivation;
the source never constructs an error value itself. -/
def parse_file (manycore : ManycoreSystem) : Option ManycoreSystem :=
  let sortedCores := sortCores manycore.cores
  match sortedCores.length with
  | 0 => none
  | last + 1 =>
    match runLoop manycore.columns last (List.range (last + 1))
        ⟨manycore.connections, [], sortedCores⟩ with
    | none => none
    | some st =>
      let attrs := workout_attributes st.cores
      some { manycore with
        cores := st.cores,
        connections := st.connections,
        task_core_map := st.task_core_map,
        configurable_attributes := {
          core := attrs.1,
          router := attrs.2,
          algorithms := SUPPORTED_ALGORITHMS,
          observed_algorithm := manycore.routing_algo,
          sinks_sources := !manycore.sinks.isEmpty || !manycore.sources.isEmpty } }

/-! ### Proof infrastructure

Pure characterizations of the derivation loop, used to state and prove the
claims.  They introduce no behaviour of their own: every lemma below relates
them to the embedded source functions. -/

/-- The allocated task carried by the core at position `i`. -/
def taskAt (cs : List Core) (i : Nat) : Option Nat :=
  (cs[i]?).bind Core.allocated_task

/-- The index of the last core among `idxs` whose allocated task is `t`
(falling back to `acc` when there is none): the value the task-core map
ends up holding for `t`, since later insertions overwrite earlier ones. -/
def lastMatch (cs : List Core) (t : Nat) (idxs : List Nat) (acc : Option Nat) :
    Option Nat :=
  idxs.foldl (fun a i => if taskAt cs i = some t then some i else a) acc

/-! ### Concrete decoded documents used as test inputs -/

/-- A decoded document declaring a 3x3 grid but carrying only two cores. -/
def twoCoreSys : ManycoreSystem :=
  { rows := 3, columns := 3, cores := [{ id := 0 }, { id := 1 }] }

/-- A decoded document with N = 3 cores whose identifiers are {0, 1, 3}
(document order 3, 0, 1), each router carrying document identifier 9. -/
def gappedSys : ManycoreSystem :=
  { rows := 1, columns := 3,
    cores := [{ id := 3, router := { id := 9 } },
              { id := 0, router := { id := 9 } },
              { id := 1, router := { id := 9 } }] }

/-- The model derived from `gappedSys`. -/
def gappedOut : ManycoreSystem := (parse_file gappedSys).getD {}

/-- A decoded 1x2 document with contiguous identifiers 0, 1 whose routers
carry unrelated document identifiers 7 and 9. -/
def contigSys : ManycoreSystem :=
  { rows := 1, columns := 2,
    cores := [{ id := 0, router := { id := 7 } },
              { id := 1, router := { id := 9 } }] }

/-- The model derived from `contigSys`. -/
def contigOut : ManycoreSystem := (parse_file contigSys).getD {}

/-- A decoded 1x2 document whose two cores both declare allocated task 5. -/
def dupTaskSys : ManycoreSystem :=
  { rows := 1, columns := 2,
    cores := [{ id := 0, allocated_task := some 5 },
              { id := 1, allocated_task := some 5 }] }

/-- The model derived from `dupTaskSys`. -/
def dupTaskOut : ManycoreSystem := (parse_file dupTaskSys).getD {}

/-- A decoded 1x2 document whose first core declares "@age" = "30" and
whose second core declares "@age" = "thirty". -/
def ageSys : ManycoreSystem :=
  { rows := 1, columns := 2,
    cores := [{ id := 0, other_attributes := some [("@age", "30")] },
              { id := 1, other_attributes := some [("@age", "thirty")] }] }

/-- A decoded 1x1 document with an observed algorithm and a sink. -/
def c9sys : ManycoreSystem :=
  { rows := 1, columns := 1,
    routing_algo := some "RowFirst",
    sinks := [(5, { coordinate := 5, direction := SinkSourceDirection.east })],
    cores := [{ id := 0 }] }

/-- A decoded 1x1 document whose core's bag carries "@id" with a numeric
value. -/
def idBagSys : ManycoreSystem :=
  { rows := 1, columns := 1,
    cores := [{ id := 0, other_attributes := some [("@id", "42")] }] }

/-- The model derived from `idBagSys`. -/
def idBagOut : ManycoreSystem := (parse_file idBagSys).getD {}

/-- A decoded 1x3 document whose cores appear in document order 2, 0, 1. -/
def unsortedSys : ManycoreSystem :=
  { rows := 1, columns := 3,
    cores := [{ id := 2 }, { id := 0 }, { id := 1 }] }

/-- The model derived from `unsortedSys`. -/
def unsortedOut : ManycoreSystem := (parse_file unsortedSys).getD {}

/-- A decoded 1x2 document with contiguous identifiers 0, 1. -/
def grid12 : ManycoreSystem :=
  { rows := 1, columns := 2, cores := [{ id := 0 }, { id := 1 }] }

/-- The model derived from `grid12`. -/
def grid12Out : ManycoreSystem := (parse_file grid12).getD {}

/-! #### Association-list map lemmas -/

theorem hmContains_eq_isSome {κ α : Type} [DecidableEq κ]
    (m : List (κ × α)) (k : κ) : hmContains m k = (hmLookup m k).isSome := by
  induction m with
  | nil => rfl
  | cons p rest ih =>
    by_cases h : p.1 = k
    · simp [hmContains, hmLookup, h]
    · simpa [hmContains, hmLookup, h] using ih

theorem hmLookup_replace_self {κ α : Type} [DecidableEq κ]
    (m : List (κ × α)) (k : κ) (v : α) :
    hmLookup (m.map (fun p => if p.1 = k then (k, v) else p)) k =
      (hmLookup m k).map (fun _ => v) := by
  induction m with
  | nil => rfl
  | cons p rest ih =>
    by_cases h : p.1 = k
    · simp [hmLookup, h]
    · simpa [hmLookup, h] using ih

theorem hmLookup_replace_other {κ α : Type} [DecidableEq κ]
    (m : List (κ × α)) (k k' : κ) (v : α) (hne : k' ≠ k) :
    hmLookup (m.map (fun p => if p.1 = k then (k, v) else p)) k' =
      hmLookup m k' := by
  induction m with
  | nil => rfl
  | cons p rest ih =>
    by_cases h : p.1 = k
    · have h2 : ¬ (k = k') := fun hk => hne hk.symm
      have h3 : ¬ (p.1 = k') := fun hk => hne (hk.symm.trans h)
      simpa [hmLookup, h, h2, h3] using ih
    · by_cases h3 : p.1 = k'
      · simp [hmLookup, h, h3, hne]
      · simpa [hmLookup, h, h3] using ih

theorem hmLookup_append_single {κ α : Type} [DecidableEq κ]
    (m : List (κ × α)) (k k' : κ) (v : α) :
    hmLookup (m ++ [(k, v)]) k' =
      (hmLookup m k').or (if k' = k then some v else none) := by
  induction m with
  | nil =>
    by_cases h : k = k'
    · simp [hmLookup, h, Option.none_or]
    · have h2 : ¬ (k' = k) := fun hk => h hk.symm
      simp [hmLookup, h, h2, Option.none_or]
  | cons p rest ih =>
    by_cases h : p.1 = k'
    · simp [hmLookup, h]
    · simpa [hmLookup, h] using ih

theorem hmLookup_hmInsert {κ α : Type} [DecidableEq κ]
    (m : List (κ × α)) (k k' : κ) (v : α) :
    hmLookup (hmInsert m k v) k' = if k' = k then some v else hmLookup m k' := by
  unfold hmInsert
  by_cases hc : hmContains m k
  · rw [if_pos hc]
    by_cases h : k' = k
    · subst h
      rw [hmLookup_replace_self, if_pos rfl]
      rw [hmContains_eq_isSome] at hc
      cases hl : hmLookup m k' with
      | none => rw [hl] at hc; simp at hc
      | some w => simp
    · rw [hmLookup_replace_other m k k' v h, if_neg h]
  · rw [if_neg hc]
    rw [hmLookup_append_single]
    by_cases h : k' = k
    · subst h
      rw [hmContains_eq_isSome] at hc
      cases hl : hmLookup m k' with
      | none => simp [hl, Option.none_or]
      | some w => rw [hl] at hc; simp at hc
    · simp [h, Option.or_none]

/-! #### Attribute-scan lemmas -/

theorem populate_foldl_preserves (bag : List (String × String))
    (map : List (String × AttributeType)) (k : String) (v : AttributeType)
    (h : hmLookup map k = some v) :
    hmLookup (bag.foldl (fun m kv =>
      if hmContains m kv.1 then m
      else hmInsert m kv.1
        (match parseU64 kv.2 with
         | some _ => AttributeType.number
         | none => AttributeType.text)) map) k = some v := by
  induction bag generalizing map with
  | nil => exact h
  | cons kv rest ih =>
    rw [List.foldl_cons]
    apply ih
    by_cases hc : hmContains map kv.1
    · rw [if_pos hc]; exact h
    · rw [if_neg hc, hmLookup_hmInsert]
      by_cases hk : k = kv.1
      · subst hk
        rw [hmContains_eq_isSome, h] at hc
        simp at hc
      · rw [if_neg hk]; exact h

/-- Once a key's kind is recorded, `populate_attribute_map` never changes
it: the scan only ever inserts keys that are absent. -/
theorem populate_preserves {α : Type} [WithXMLAttributes α] (item : α)
    (map : List (String × AttributeType)) (k : String) (v : AttributeType)
    (h : hmLookup map k = some v) :
    hmLookup (populate_attribute_map item map) k = some v := by
  unfold populate_attribute_map
  cases WithXMLAttributes.other_attributes item with
  | none => exact h
  | some bag => exact populate_foldl_preserves bag map k v h

theorem populate_foldl_none (bag : List (String × String)) (k : String) :
    ∀ map : List (String × AttributeType), (∀ p ∈ bag, p.1 ≠ k) →
    hmLookup map k = none →
    hmLookup (bag.foldl (fun m kv =>
      if hmContains m kv.1 then m
      else hmInsert m kv.1
        (match parseU64 kv.2 with
         | some _ => AttributeType.number
         | none => AttributeType.text)) map) k = none := by
  induction bag with
  | nil => intro map _ h; exact h
  | cons kv rest ih =>
    intro map hk h
    rw [List.foldl_cons]
    refine ih _ (fun p hp => hk p (List.mem_cons_of_mem _ hp)) ?_
    by_cases hc : hmContains map kv.1
    · rw [if_pos hc]; exact h
    · rw [if_neg hc, hmLookup_hmInsert]
      have hne : k ≠ kv.1 := fun he => hk kv (List.mem_cons_self _ _) he.symm
      rw [if_neg hne]; exact h

/-- The first occurrence of a key in a bag decides its recorded kind:
`Number` when the value parses as a `u64`, `Text` otherwise. -/
theorem populate_first_seen {α : Type} [WithXMLAttributes α] (item : α)
    (map : List (String × AttributeType)) (k v : String)
    (pre post : List (String × String))
    (hbag : WithXMLAttributes.other_attributes item = some (pre ++ (k, v) :: post))
    (hpre : ∀ p ∈ pre, p.1 ≠ k)
    (hmap : hmLookup map k = none) :
    hmLookup (populate_attribute_map item map) k =
      some (match parseU64 v with
            | some _ => AttributeType.number
            | none => AttributeType.text) := by
  simp only [populate_attribute_map, hbag]
  rw [List.foldl_append, List.foldl_cons]
  have h1 : hmLookup (pre.foldl (fun m kv =>
      if hmContains m kv.1 then m
      else hmInsert m kv.1
        (match parseU64 kv.2 with
         | some _ => AttributeType.number
         | none => AttributeType.text)) map) k = none :=
    populate_foldl_none pre k map hpre hmap
  have hc : ¬ (hmContains (pre.foldl (fun m kv =>
      if hmContains m kv.1 then m
      else hmInsert m kv.1
        (match parseU64 kv.2 with
         | some _ => AttributeType.number
         | none => AttributeType.text)) map) k = true) := by
    rw [hmContains_eq_isSome, h1]
    simp
  rw [if_neg hc]
  exact populate_foldl_preserves post _ k _ (by rw [hmLookup_hmInsert, if_pos rfl])

/-- The whole-cores attribute scan never changes an entry already present
in the core registry. -/
theorem workout_fold_core_preserves (cores : List Core)
    (p : List (String × AttributeType) × List (String × AttributeType))
    (k : String) (v : AttributeType) (h : hmLookup p.1 k = some v) :
    hmLookup ((cores.foldl (fun p core =>
      (populate_attribute_map core p.1,
       populate_attribute_map core.router p.2)) p).1) k = some v := by
  induction cores generalizing p with
  | nil => exact h
  | cons c rest ih =>
    rw [List.foldl_cons]
    exact ih _ (populate_preserves c p.1 k v h)

/-! #### `lastMatch` lemmas -/

theorem lastMatch_nil (cs : List Core) (t : Nat) (acc : Option Nat) :
    lastMatch cs t [] acc = acc := rfl

theorem lastMatch_cons (cs : List Core) (t i : Nat) (rest : List Nat)
    (acc : Option Nat) :
    lastMatch cs t (i :: rest) acc =
      lastMatch cs t rest (if taskAt cs i = some t then some i else acc) := rfl

theorem lastMatch_append (cs : List Core) (t : Nat) (l1 l2 : List Nat)
    (acc : Option Nat) :
    lastMatch cs t (l1 ++ l2) acc = lastMatch cs t l2 (lastMatch cs t l1 acc) :=
  List.foldl_append _ _ _ _

theorem lastMatch_init (cs : List Core) (t : Nat) (idxs : List Nat) :
    ∀ acc, lastMatch cs t idxs acc = (lastMatch cs t idxs none).or acc := by
  induction idxs with
  | nil => intro acc; rw [lastMatch_nil, lastMatch_nil, Option.none_or]
  | cons i rest ih =>
    intro acc
    rw [lastMatch_cons, lastMatch_cons]
    by_cases h : taskAt cs i = some t
    · rw [if_pos h, if_pos h, ih (some i)]
      rw [Option.or_assoc]
      rfl
    · rw [if_neg h, if_neg h, ih acc]

theorem lastMatch_congr (cs1 cs2 : List Core) (t : Nat)
    (h : ∀ i, taskAt cs1 i = taskAt cs2 i) (idxs : List Nat) :
    ∀ acc, lastMatch cs1 t idxs acc = lastMatch cs2 t idxs acc := by
  induction idxs with
  | nil => intro acc; rfl
  | cons i rest ih =>
    intro acc
    rw [lastMatch_cons, lastMatch_cons, h i]
    exact ih _

theorem lastMatch_range_none (cs : List Core) (t L : Nat) :
    lastMatch cs t (List.range L) none = none ↔
      ∀ i, i < L → taskAt cs i ≠ some t := by
  induction L with
  | zero => simp [lastMatch]
  | succ n ih =>
    rw [List.range_succ, lastMatch_append, lastMatch_cons, lastMatch_nil]
    constructor
    · intro h i hi
      by_cases hn : taskAt cs n = some t
      · rw [if_pos hn] at h; simp at h
      · rw [if_neg hn] at h
        rcases Nat.lt_succ_iff_lt_or_eq.mp hi with h' | h'
        · exact (ih.mp h) i h'
        · subst h'; exact hn
    · intro h
      have hn : taskAt cs n ≠ some t := h n (Nat.lt_succ_self n)
      rw [if_neg hn]
      exact ih.mpr (fun i hi => h i (Nat.lt_succ_of_lt hi))

theorem lastMatch_range_some (cs : List Core) (t L i : Nat) :
    lastMatch cs t (List.range L) none = some i →
      i < L ∧ taskAt cs i = some t ∧
        ∀ j, i < j → j < L → taskAt cs j ≠ some t := by
  induction L with
  | zero => intro h; simp [lastMatch] at h
  | succ n ih =>
    intro h
    rw [List.range_succ, lastMatch_append, lastMatch_cons, lastMatch_nil] at h
    by_cases hn : taskAt cs n = some t
    · rw [if_pos hn] at h
      have hni : n = i := by injection h
      subst hni
      refine ⟨Nat.lt_succ_self n, hn, fun j hj hjL => ?_⟩
      omega
    · rw [if_neg hn] at h
      obtain ⟨h1, h2, h3⟩ := ih h
      refine ⟨Nat.lt_succ_of_lt h1, h2, fun j hj hjL => ?_⟩
      rcases Nat.lt_succ_iff_lt_or_eq.mp hjL with h' | h'
      · exact h3 j hj h'
      · subst h'; exact hn

/-! #### `taskAt` lemmas -/

theorem taskAt_set_withRouterId (cs : List Core) (i : Nat) (c : Core)
    (h : cs[i]? = some c) (j : Nat) :
    taskAt (cs.set i (withRouterId i c)) j = taskAt cs j := by
  unfold taskAt
  rw [List.getElem?_set]
  by_cases hij : i = j
  · subst hij
    obtain ⟨hlen, -⟩ := List.getElem?_eq_some_iff.mp h
    rw [if_pos rfl, if_pos hlen, h]
    rfl
  · rw [if_neg hij]

/-! #### Loop characterization -/

theorem loopStep_eq (usize_columns last : Nat) (hc : usize_columns ≠ 0)
    (st : LoopState) (i : Nat) (core : Core) (hi : st.cores[i]? = some core) :
    loopStep usize_columns last st i = some
      ⟨hmInsert st.connections i (neighboursFor usize_columns last i),
       match core.allocated_task with
       | some task_id => hmInsert st.task_core_map task_id i
       | none => st.task_core_map,
       st.cores.set i (withRouterId i core)⟩ := by
  unfold loopStep
  rw [if_neg hc, hi]

/-- Pointwise characterization of the derivation loop over the index range
`[k, k + n)`: it succeeds whenever the whole range is in bounds, overwrites
each visited router id with its position, derives the neighbour record of
each visited index, and ends with the task-core map recording, for each
task, the last visited index whose core declares it. -/
theorem runLoop_spec (usize_columns last : Nat) (hc : usize_columns ≠ 0) :
    ∀ (n k : Nat) (st : LoopState), k + n = last + 1 →
    st.cores.length = last + 1 →
    ∃ st' : LoopState,
      runLoop usize_columns last (List.range' k n) st = some st' ∧
      st'.cores.length = last + 1 ∧
      (∀ j, st'.cores[j]? =
        if k ≤ j ∧ j < k + n then (st.cores[j]?).map (withRouterId j)
        else st.cores[j]?) ∧
      (∀ j, hmLookup st'.connections j =
        if k ≤ j ∧ j < k + n then some (neighboursFor usize_columns last j)
        else hmLookup st.connections j) ∧
      (∀ t, hmLookup st'.task_core_map t =
        (lastMatch st.cores t (List.range' k n) none).or
          (hmLookup st.task_core_map t)) := by
  intro n
  induction n with
  | zero =>
    intro k st _ hlen
    refine ⟨st, by rw [List.range'_zero]; rfl, hlen, ?_, ?_, ?_⟩
    · intro j; rw [if_neg (by omega)]
    · intro j; rw [if_neg (by omega)]
    · intro t; rw [List.range'_zero, lastMatch_nil, Option.none_or]
  | succ n ih =>
    intro k st hk hlen
    have hkl : k < st.cores.length := by omega
    have hcore : st.cores[k]? = some st.cores[k] := List.getElem?_eq_getElem hkl
    obtain ⟨st', hrun, hlen', hcores, hconn, htask⟩ :=
      ih (k + 1)
        ⟨hmInsert st.connections k (neighboursFor usize_columns last k),
         match (st.cores[k]).allocated_task with
         | some task_id => hmInsert st.task_core_map task_id k
         | none => st.task_core_map,
         st.cores.set k (withRouterId k st.cores[k])⟩
        (by omega) (by simpa [List.length_set] using hlen)
    dsimp only at hcores hconn htask
    refine ⟨st', ?_, hlen', ?_, ?_, ?_⟩
    · rw [List.range'_succ]
      unfold runLoop
      rw [loopStep_eq usize_columns last hc st k (st.cores[k]) hcore]
      exact hrun
    · intro j
      have hj := hcores j
      by_cases h1 : j = k
      · subst h1
        rw [if_neg (by omega), List.getElem?_set, if_pos rfl, if_pos hkl] at hj
        rw [hj, if_pos (by omega), hcore]
        rfl
      · by_cases h2 : k ≤ j ∧ j < k + (n + 1)
        · have h2a : k + 1 ≤ j ∧ j < k + 1 + n := by omega
          rw [if_pos h2a, List.getElem?_set, if_neg (fun he => h1 he.symm)] at hj
          rw [hj, if_pos h2]
        · have h2a : ¬ (k + 1 ≤ j ∧ j < k + 1 + n) := by omega
          rw [if_neg h2a, List.getElem?_set, if_neg (fun he => h1 he.symm)] at hj
          rw [hj, if_neg h2]
    · intro j
      have hj := hconn j
      by_cases h1 : j = k
      · subst h1
        rw [if_neg (by omega), hmLookup_hmInsert, if_pos rfl] at hj
        rw [hj, if_pos (by omega)]
      · by_cases h2 : k ≤ j ∧ j < k + (n + 1)
        · have h2a : k + 1 ≤ j ∧ j < k + 1 + n := by omega
          rw [if_pos h2a] at hj
          rw [hj, if_pos h2]
        · have h2a : ¬ (k + 1 ≤ j ∧ j < k + 1 + n) := by omega
          rw [if_neg h2a, hmLookup_hmInsert, if_neg h1] at hj
          rw [hj, if_neg h2]
    · intro t
      have ht := htask t
      have hcongr : ∀ i,
          taskAt (st.cores.set k (withRouterId k st.cores[k])) i = taskAt st.cores i :=
        taskAt_set_withRouterId st.cores k (st.cores[k]) hcore
      rw [lastMatch_congr _ _ t hcongr (List.range' (k + 1) n) none] at ht
      rw [List.range'_succ, lastMatch_cons, lastMatch_init, ht, Option.or_assoc]
      congr 1
      have hta : taskAt st.cores k = (st.cores[k]).allocated_task := by
        unfold taskAt; rw [hcore]; rfl
      cases hat : (st.cores[k]).allocated_task with
      | none =>
        rw [hta, hat]
        simp [Option.none_or]
      | some tid =>
        rw [hta, hat, hmLookup_hmInsert]
        by_cases he : t = tid
        · subst he
          rw [if_pos rfl, if_pos rfl]
          rfl
        · rw [if_neg he, if_neg (fun hs => he (Option.some.inj hs).symm), Option.none_or]

/-! #### `parse_file` characterization -/

theorem parse_file_eq_zero (m : ManycoreSystem)
    (h : (sortCores m.cores).length = 0) : parse_file m = none := by
  simp only [parse_file]
  rw [h]

theorem parse_file_eq_succ (m : ManycoreSystem) (last : Nat)
    (h : (sortCores m.cores).length = last + 1) :
    parse_file m =
      match runLoop m.columns last (List.range (last + 1))
          ⟨m.connections, [], sortCores m.cores⟩ with
      | none => none
      | some st =>
        some { m with
          cores := st.cores,
          connections := st.connections,
          task_core_map := st.task_core_map,
          configurable_attributes := {
            core := (workout_attributes st.cores).1,
            router := (workout_attributes st.cores).2,
            algorithms := SUPPORTED_ALGORITHMS,
            observed_algorithm := m.routing_algo,
            sinks_sources := !m.sinks.isEmpty || !m.sources.isEmpty } } := by
  simp only [parse_file]
  rw [h]

/-- Everything `parse_file` guarantees about a successfully returned model:
the input had a non-empty core list and a nonzero column count, the wire
fields are untouched, the cores are the sorted input cores with router ids
overwritten positionally, the connection map holds the derived neighbour
record of every position, the task-core map holds the last position (in
sorted order) declaring each task, and the attribute schema is the scan of
the final cores seeded with the pinned entries. -/
theorem parse_file_char (m m' : ManycoreSystem) (h : parse_file m = some m') :
    m.cores ≠ [] ∧ m.columns ≠ 0 ∧
    m'.rows = m.rows ∧ m'.columns = m.columns ∧
    m'.cores.length = m.cores.length ∧
    (∀ j, m'.cores[j]? = ((sortCores m.cores)[j]?).map (withRouterId j)) ∧
    (∀ j, j < m.cores.length →
      hmLookup m'.connections j =
        some (neighboursFor m.columns (m.cores.length - 1) j)) ∧
    (∀ t, hmLookup m'.task_core_map t =
      lastMatch (sortCores m.cores) t (List.range m.cores.length) none) ∧
    m'.configurable_attributes = {
      core := (workout_attributes m'.cores).1,
      router := (workout_attributes m'.cores).2,
      algorithms := SUPPORTED_ALGORITHMS,
      observed_algorithm := m.routing_algo,
      sinks_sources := !m.sinks.isEmpty || !m.sources.isEmpty } := by
  have hslen : (sortCores m.cores).length = m.cores.length :=
    List.length_insertionSort _ _
  cases hL : (sortCores m.cores).length with
  | zero =>
    rw [parse_file_eq_zero m hL] at h
    cases h
  | succ last =>
    have hclen : m.cores.length = last + 1 := by omega
    have hcne : m.cores ≠ [] := List.ne_nil_of_length_pos (by omega)
    have hcols : m.columns ≠ 0 := by
      intro h0
      have hrne : List.range (last + 1) ≠ [] := by
        intro hemp
        have := List.length_range (last + 1)
        rw [hemp] at this
        simp at this
      obtain ⟨a, rest, har⟩ := List.exists_cons_of_ne_nil hrne
      have hnone : parse_file m = none := by
        rw [parse_file_eq_succ m last hL, har]
        have hstep : loopStep m.columns last
            ⟨m.connections, [], sortCores m.cores⟩ a = none := by
          unfold loopStep
          rw [if_pos h0]
        unfold runLoop
        rw [hstep]
      rw [hnone] at h
      cases h
    obtain ⟨st', hrun, hlen', hcores, hconn, htask⟩ :=
      runLoop_spec m.columns last hcols (last + 1) 0
        ⟨m.connections, [], sortCores m.cores⟩ (by omega) hL
    dsimp only at hcores hconn htask
    rw [parse_file_eq_succ m last hL, List.range_eq_range', hrun] at h
    have hm' : { m with
        cores := st'.cores,
        connections := st'.connections,
        task_core_map := st'.task_core_map,
        configurable_attributes := {
          core := (workout_attributes st'.cores).1,
          router := (workout_attributes st'.cores).2,
          algorithms := SUPPORTED_ALGORITHMS,
          observed_algorithm := m.routing_algo,
          sinks_sources := !m.sinks.isEmpty || !m.sources.isEmpty } } = m' :=
      Option.some.inj h
    subst hm'
    refine ⟨hcne, hcols, rfl, rfl, ?_, ?_, ?_, ?_, rfl⟩
    · show st'.cores.length = m.cores.length
      omega
    · intro j
      show st'.cores[j]? = ((sortCores m.cores)[j]?).map (withRouterId j)
      have hj := hcores j
      by_cases hlt : j < last + 1
      · rw [if_pos ⟨Nat.zero_le j, by omega⟩] at hj
        exact hj
      · rw [if_neg (by omega)] at hj
        have hn : (sortCores m.cores)[j]? = none := List.getElem?_eq_none (by omega)
        rw [hj, hn]
        rfl
    · intro j hjlen
      show hmLookup st'.connections j =
        some (neighboursFor m.columns (m.cores.length - 1) j)
      have hj := hconn j
      rw [if_pos ⟨Nat.zero_le j, by omega⟩] at hj
      have hl1 : m.cores.length - 1 = last := by omega
      rw [hj, hl1]
    · intro t
      show hmLookup st'.task_core_map t =
        lastMatch (sortCores m.cores) t (List.range m.cores.length) none
      have ht := htask t
      rw [ht]
      have hemp : hmLookup ([] : List (Nat × Nat)) t = none := rfl
      rw [hemp, Option.or_none, hclen, List.range_eq_range']

/-- The derivation succeeds whenever the decoded core list is non-empty and
the column count is nonzero. -/
theorem parse_file_total (m : ManycoreSystem) (hne : m.cores ≠ [])
    (hc : m.columns ≠ 0) : (parse_file m).isSome := by
  have hslen : (sortCores m.cores).length = m.cores.length :=
    List.length_insertionSort _ _
  have hpos : 0 < m.cores.length := List.length_pos.mpr hne
  obtain ⟨last, hL⟩ : ∃ last, (sortCores m.cores).length = last + 1 :=
    ⟨m.cores.length - 1, by omega⟩
  obtain ⟨st', hrun, -, -, -, -⟩ :=
    runLoop_spec m.columns last hc (last + 1) 0
      ⟨m.connections, [], sortCores m.cores⟩ (by omega) hL
  rw [parse_file_eq_succ m last hL, List.range_eq_range', hrun]
  rfl

/-! #### Neighbour-record field lemmas and edge arithmetic -/

theorem neighboursFor_top (C last i : Nat) :
    (neighboursFor C last i).top =
      if C ≤ i then some { id := some (i - C) } else none := by
  unfold neighboursFor
  by_cases hA : (i + 1) % C ≠ 0 <;> by_cases hB : i % C ≠ 0 <;>
    by_cases hC2 : C ≤ i <;> by_cases hD : i + C ≤ last <;>
    simp [hA, hB, hC2, hD]

theorem neighboursFor_right (C last i : Nat) :
    (neighboursFor C last i).right =
      if (i + 1) % C ≠ 0 then some { id := some (i + 1) } else none := by
  unfold neighboursFor
  by_cases hA : (i + 1) % C ≠ 0 <;> by_cases hB : i % C ≠ 0 <;>
    by_cases hC2 : C ≤ i <;> by_cases hD : i + C ≤ last <;>
    simp [hA, hB, hC2, hD]

theorem neighboursFor_left (C last i : Nat) :
    (neighboursFor C last i).left =
      if i % C ≠ 0 then some { id := some (i - 1) } else none := by
  unfold neighboursFor
  by_cases hA : (i + 1) % C ≠ 0 <;> by_cases hB : i % C ≠ 0 <;>
    by_cases hC2 : C ≤ i <;> by_cases hD : i + C ≤ last <;>
    simp [hA, hB, hC2, hD]

theorem neighboursFor_bottom (C last i : Nat) :
    (neighboursFor C last i).bottom =
      if i + C ≤ last then some { id := some (i + C) } else none := by
  unfold neighboursFor
  by_cases hA : (i + 1) % C ≠ 0 <;> by_cases hB : i % C ≠ 0 <;>
    by_cases hC2 : C ≤ i <;> by_cases hD : i + C ≤ last <;>
    simp [hA, hB, hC2, hD]

theorem succ_mod_eq_zero_iff (C i : Nat) (hC : C ≠ 0) :
    (i + 1) % C = 0 ↔ i % C = C - 1 := by
  rcases Nat.lt_or_ge C 2 with h2 | h2
  · have hC1 : C = 1 := by omega
    subst hC1
    simp [Nat.mod_one]
  · have hCpos : 0 < C := by omega
    have hr : i % C < C := Nat.mod_lt _ hCpos
    have h1C : 1 % C = 1 := Nat.mod_eq_of_lt (by omega)
    rw [Nat.add_mod, h1C]
    constructor
    · intro h
      by_cases he : i % C + 1 = C
      · omega
      · have hlt : i % C + 1 < C := by omega
        rw [Nat.mod_eq_of_lt hlt] at h
        omega
    · intro h
      have he : i % C + 1 = C := by omega
      rw [he, Nat.mod_self]

theorem bottom_edge_iff (R C i : Nat) (hC : C ≠ 0) (hR : R ≠ 0)
    (hi : i < R * C) : R * C - 1 < i + C ↔ i / C = R - 1 := by
  have hCpos : 0 < C := Nat.pos_of_ne_zero hC
  have hRC : (R - 1) * C + C = R * C := by
    have h1 : R - 1 + 1 = R := Nat.succ_pred_eq_of_pos (Nat.pos_of_ne_zero hR)
    calc (R - 1) * C + C = (R - 1 + 1) * C := (Nat.succ_mul _ _).symm
      _ = R * C := by rw [h1]
  have hdivlt : i / C < R := (Nat.div_lt_iff_lt_mul hCpos).mpr hi
  have hle : R - 1 ≤ i / C ↔ (R - 1) * C ≤ i := Nat.le_div_iff_mul_le hCpos
  constructor
  · intro h
    have hge : (R - 1) * C ≤ i := by omega
    have hge2 : R - 1 ≤ i / C := hle.mpr hge
    omega
  · intro h
    have hge : (R - 1) * C ≤ i := hle.mp (by omega)
    omega

/-- The four edge-position facts read off a derived neighbour record, for a
full `R * C` grid: a neighbour is absent exactly when the position sits on
the corresponding edge of the row-major grid. -/
theorem neighbours_edge_char (R C last i : Nat) (hC : C ≠ 0) (hR : R ≠ 0)
    (hlast : last = R * C - 1) (hi : i < R * C) :
    ((neighboursFor C last i).top = none ↔ i / C = 0) ∧
    ((neighboursFor C last i).bottom = none ↔ i / C = R - 1) ∧
    ((neighboursFor C last i).left = none ↔ i % C = 0) ∧
    ((neighboursFor C last i).right = none ↔ i % C = C - 1) := by
  have hCpos : 0 < C := Nat.pos_of_ne_zero hC
  refine ⟨?_, ?_, ?_, ?_⟩
  · rw [neighboursFor_top, Nat.div_eq_zero_iff hCpos]
    by_cases h : C ≤ i
    · rw [if_pos h]; simp; omega
    · rw [if_neg h]; simp; omega
  · rw [neighboursFor_bottom, hlast]
    by_cases h : i + C ≤ R * C - 1
    · rw [if_pos h]
      have hne : ¬ (i / C = R - 1) := by
        rw [← bottom_edge_iff R C i hC hR hi]
        omega
      simp [hne]
    · rw [if_neg h]
      have heq : i / C = R - 1 := by
        rw [← bottom_edge_iff R C i hC hR hi]
        omega
      simp [heq]
  · rw [neighboursFor_left]
    by_cases h : i % C ≠ 0
    · rw [if_pos h]; simp [h]
    · rw [if_neg h]
      simp
      exact not_not.mp h
  · rw [neighboursFor_right]
    by_cases h : (i + 1) % C ≠ 0
    · rw [if_pos h]
      have hne : ¬ (i % C = C - 1) :=
        fun hh => h ((succ_mod_eq_zero_iff C i hC).mpr hh)
      simp [hne]
    · rw [if_neg h]
      simp [(succ_mod_eq_zero_iff C i hC).mp (not_not.mp h)]

/-! #### Sortedness infrastructure -/

instance : IsTotal Core (fun me other => me.id ≤ other.id) :=
  ⟨fun a b => Nat.le_total a.id b.id⟩

instance : IsTrans Core (fun me other => me.id ≤ other.id) :=
  ⟨fun _ _ _ hab hbc => Nat.le_trans hab hbc⟩

theorem sortCores_sorted (cores : List Core) :
    List.Sorted (fun me other => me.id ≤ other.id) (sortCores cores) :=
  List.sorted_insertionSort _ _

theorem parse_file_ids (m m' : ManycoreSystem) (h : parse_file m = some m') :
    m'.cores.map Core.id = (sortCores m.cores).map Core.id := by
  obtain ⟨-, -, -, -, -, hcores, -, -, -⟩ := parse_file_char m m' h
  apply List.ext_getElem?
  intro n
  rw [List.getElem?_map, List.getElem?_map, hcores n]
  cases (sortCores m.cores)[n]? <;> rfl

theorem parse_file_sorted (m m' : ManycoreSystem) (h : parse_file m = some m') :
    List.Sorted (fun me other => me.id ≤ other.id) m'.cores := by
  have hids := parse_file_ids m m' h
  have hs : List.Sorted (fun me other => me.id ≤ other.id) (sortCores m.cores) :=
    sortCores_sorted m.cores
  have h1 : List.Pairwise (fun a b : Nat => a ≤ b) (m'.cores.map Core.id) := by
    rw [hids]
    exact List.pairwise_map.mpr hs
  exact List.pairwise_map.mp h1

/-- In a two-element core list whose identifiers are 0 and 1, every
position's core carries its position as identifier. -/
theorem pair_id_contiguous {a b : Core} (ha : a.id = 0) (hb : b.id = 1) :
    ∀ (i : Nat) (c : Core), ([a, b] : List Core)[i]? = some c → c.id = i := by
  intro i c hic
  cases i with
  | zero =>
    have h1 : a = c := Option.some.inj hic
    rw [← h1]
    exact ha
  | succ i =>
    cases i with
    | zero =>
      have h1 : b = c := Option.some.inj hic
      rw [← h1]
      exact hb
    | succ n => simp at hic

/-! ### The claims -/

/-- C1 counterexample: a decoded System declaring a 3x3 grid but carrying
only two cores is not rejected: `parse_file` returns a model (still with
two cores), although 2 differs from rows * columns = 9.  No
StructuralMismatch error exists in the code. -/
theorem C1_counterexample :
    (parse_file twoCoreSys).map (fun m => m.cores.length) = some 2 ∧
    twoCoreSys.rows * twoCoreSys.columns = 9 :=
  ⟨rfl, rfl⟩

/-- C1 (amended): `parse_file` performs no core-count validation: every
decoded System with a non-empty core list and a nonzero column count whose
core count differs from rows * columns still yields a model, and the
model's core count still differs from rows * columns. -/
theorem C1_theorem (m : ManycoreSystem) (hne : m.cores ≠ [])
    (hc : m.columns ≠ 0) (hmis : m.cores.length ≠ m.rows * m.columns) :
    ∃ m', parse_file m = some m' ∧ m'.cores.length ≠ m.rows * m.columns := by
  obtain ⟨m', hm'⟩ := Option.isSome_iff_exists.mp (parse_file_total m hne hc)
  obtain ⟨-, -, -, -, hlen, -, -, -, -⟩ := parse_file_char m m' hm'
  refine ⟨m', hm', ?_⟩
  rw [hlen]
  exact hmis

/-- C1 witness: the amended claim applied to the two-core 3x3 document. -/
theorem C1_witness :
    ∃ m', parse_file twoCoreSys = some m' ∧
      m'.cores.length ≠ twoCoreSys.rows * twoCoreSys.columns :=
  C1_theorem twoCoreSys (by decide) (by decide) (by decide)

/-- C2 counterexample: identifiers {0, 1, 3} with N = 3 are not rejected:
`parse_file` returns a model carrying exactly those identifiers (sorted),
and no IdentifierSequenceError exists in the code. -/
theorem C2_counterexample :
    (parse_file gappedSys).map (fun m => m.cores.map Core.id) =
      some [0, 1, 3] :=
  rfl

/-- C2 (amended): `parse_file` performs no identifier-sequence validation:
every decoded System with a non-empty core list and a nonzero column count
is accepted, and the returned model's identifier sequence is the input's
identifiers sorted ascending - gaps and repeats included. -/
theorem C2_theorem (m : ManycoreSystem) (hne : m.cores ≠ [])
    (hc : m.columns ≠ 0) :
    ∃ m', parse_file m = some m' ∧
      m'.cores.map Core.id = (sortCores m.cores).map Core.id := by
  obtain ⟨m', hm'⟩ := Option.isSome_iff_exists.mp (parse_file_total m hne hc)
  exact ⟨m', hm', parse_file_ids m m' hm'⟩

/-- C2 witness: the amended claim applied to the {0, 1, 3} document. -/
theorem C2_witness :
    ∃ m', parse_file gappedSys = some m' ∧
      m'.cores.map Core.id = (sortCores gappedSys.cores).map Core.id :=
  C2_theorem gappedSys (by decide) (by decide)

/-- C3 counterexample: on the accepted model with identifiers {0, 1, 3},
the core with identifier 3 receives router identifier 2 (its position in
the sorted list), not 3: the owned router's identifier does not equal the
core's identifier for every successfully returned model. -/
theorem C3_counterexample :
    (parse_file gappedSys).map
      (fun m => m.cores.map (fun c => decide (c.router.id = c.id))) =
      some [true, true, false] :=
  rfl

/-- C3 (amended): in every returned model, the router identifier of the
core at position i of the (sorted) core list equals i % 256 - the position
index truncated to u8, the document's router identifier being discarded;
consequently it equals the core's own identifier whenever the identifiers
are exactly the positions (the contiguous sequence 0..N-1, with N at most
256 as u8 identifiers force). -/
theorem C3_theorem (m m' : ManycoreSystem) (h : parse_file m = some m') :
    (∀ (i : Nat) (c : Core), m'.cores[i]? = some c → c.router.id = i % 256) ∧
    (m'.cores.length ≤ 256 →
      (∀ (i : Nat) (c : Core), m'.cores[i]? = some c → c.id = i) →
      ∀ (i : Nat) (c : Core), m'.cores[i]? = some c → c.router.id = c.id) := by
  obtain ⟨-, -, -, -, -, hcores, -, -, -⟩ := parse_file_char m m' h
  have hmain : ∀ (i : Nat) (c : Core),
      m'.cores[i]? = some c → c.router.id = i % 256 := by
    intro i c hic
    rw [hcores i] at hic
    cases hs : (sortCores m.cores)[i]? with
    | none => rw [hs] at hic; cases hic
    | some c0 =>
      rw [hs] at hic
      have hw : withRouterId i c0 = c := Option.some.inj hic
      rw [← hw]
      rfl
  refine ⟨hmain, ?_⟩
  intro hlen hids i c hic
  have h1 := hmain i c hic
  have h2 := hids i c hic
  obtain ⟨hi, -⟩ := List.getElem?_eq_some_iff.mp hic
  rw [h1, h2]
  exact Nat.mod_eq_of_lt (by omega)

/-- C3 witness: the amended claim applied to the contiguous 1x2 document
whose routers carried document identifiers 7 and 9. -/
theorem C3_witness :
    (parse_file contigSys).isSome = true ∧
    ({ id := 1, router := { id := 1 } } : Core).router.id =
      ({ id := 1, router := { id := 1 } } : Core).id :=
  ⟨rfl,
   (C3_theorem contigSys contigOut rfl).2 (by decide)
     (@pair_id_contiguous { id := 0, router := { id := 0 } }
       { id := 1, router := { id := 1 } } rfl rfl)
     1 { id := 1, router := { id := 1 } } rfl⟩

/-- C4: in every returned model, the task-core map holds a task identifier
exactly when some core declares it as allocated task (cores without a task
contribute nothing), and the recorded core index is the last one declaring
it - the later core in the ascending pass silently overwrites the earlier
one. -/
theorem C4_theorem (m m' : ManycoreSystem) (h : parse_file m = some m') :
    (∀ t : Nat, (hmLookup m'.task_core_map t).isSome ↔
      ∃ (i : Nat) (c : Core),
        m'.cores[i]? = some c ∧ c.allocated_task = some t) ∧
    (∀ (t i : Nat), hmLookup m'.task_core_map t = some i →
      ∃ c : Core, m'.cores[i]? = some c ∧ c.allocated_task = some t ∧
        ∀ (j : Nat) (c' : Core), m'.cores[j]? = some c' → i < j →
          c'.allocated_task ≠ some t) := by
  obtain ⟨-, -, -, -, hlen, hcores, -, htm, -⟩ := parse_file_char m m' h
  have hta : ∀ j, taskAt m'.cores j = taskAt (sortCores m.cores) j := by
    intro j
    unfold taskAt
    rw [hcores j]
    cases (sortCores m.cores)[j]? <;> rfl
  constructor
  · intro t
    rw [htm t]
    constructor
    · intro hsome
      obtain ⟨i, hi⟩ := Option.isSome_iff_exists.mp hsome
      obtain ⟨hlt, hat, -⟩ := lastMatch_range_some _ _ _ _ hi
      rw [← hta i] at hat
      unfold taskAt at hat
      obtain ⟨c, hc1, hc2⟩ := Option.bind_eq_some.mp hat
      exact ⟨i, c, hc1, hc2⟩
    · rintro ⟨i, c, hc1, hc2⟩
      by_contra hnone
      have hn : lastMatch (sortCores m.cores) t
          (List.range m.cores.length) none = none := by
        cases hv : lastMatch (sortCores m.cores) t
            (List.range m.cores.length) none with
        | none => rfl
        | some v => rw [hv] at hnone; simp at hnone
      have hall := (lastMatch_range_none _ _ _).mp hn
      obtain ⟨hilt, -⟩ := List.getElem?_eq_some_iff.mp hc1
      apply hall i (by omega)
      rw [← hta i]
      unfold taskAt
      rw [hc1]
      exact hc2
  · intro t i hi
    rw [htm t] at hi
    obtain ⟨hlt, hat, hafter⟩ := lastMatch_range_some _ _ _ _ hi
    rw [← hta i] at hat
    unfold taskAt at hat
    obtain ⟨c, hc1, hc2⟩ := Option.bind_eq_some.mp hat
    refine ⟨c, hc1, hc2, ?_⟩
    intro j c' hj hij hct
    obtain ⟨hjlt, -⟩ := List.getElem?_eq_some_iff.mp hj
    apply hafter j hij (by omega)
    rw [← hta j]
    unfold taskAt
    rw [hj]
    exact hct

/-- C4 witness: the claim applied to the 1x2 document whose two cores both
declare allocated task 5 (the second conjunct checks, by evaluation, that
the later core - index 1 - won). -/
theorem C4_witness :
    (hmLookup dupTaskOut.task_core_map 5).isSome = true ∧
    hmLookup dupTaskOut.task_core_map 5 = some 1 :=
  ⟨((C4_theorem dupTaskSys dupTaskOut rfl).1 5).mpr
      ⟨1, { id := 1, router := { id := 1 }, allocated_task := some 5 },
       rfl, rfl⟩,
   rfl⟩

/-- C5: once a key's kind is recorded it is never revised by a later
occurrence (first conjunct, for any scan step), and on the concrete
two-core document declaring "@age" = "30" first and "@age" = "thirty"
later, the inferred kind of "@age" in the returned schema is Number. -/
theorem C5_theorem :
    (∀ (α : Type) (inst : WithXMLAttributes α) (item : α)
        (map : List (String × AttributeType)) (k : String) (v : AttributeType),
      hmLookup map k = some v →
      hmLookup (populate_attribute_map item map) k = some v) ∧
    (parse_file ageSys).map
      (fun m => hmLookup m.configurable_attributes.core "@age") =
      some (some AttributeType.number) := by
  constructor
  · intro α inst item map k v hv
    exact @populate_preserves α inst item map k v hv
  · rfl

/-- C5 witness: the preservation conjunct applied to a recorded Number
kind for "@age" scanned against a later bag carrying "@age" = "thirty". -/
theorem C5_witness :
    hmLookup (populate_attribute_map
      ({ other_attributes := some [("@age", "thirty")] } : Core)
      [("@age", AttributeType.number)]) "@age" =
      some AttributeType.number :=
  C5_theorem.1 Core _ _ _ "@age" AttributeType.number rfl

/-- C6: the first time a free-form key is seen in an open attribute bag
(core or router), its recorded kind is Number when the textual value
parses as an unsigned 64-bit integer and Text otherwise. -/
theorem C6_theorem (α : Type) (inst : WithXMLAttributes α) (item : α)
    (map : List (String × AttributeType)) (k v : String)
    (pre post : List (String × String))
    (hbag : WithXMLAttributes.other_attributes item =
      some (pre ++ (k, v) :: post))
    (hpre : ∀ p ∈ pre, p.1 ≠ k)
    (hmap : hmLookup map k = none) :
    hmLookup (populate_attribute_map item map) k =
      some (if (parseU64 v).isSome then AttributeType.number
            else AttributeType.text) := by
  have h := @populate_first_seen α inst item map k v pre post hbag hpre hmap
  rw [h]
  cases parseU64 v <;> rfl

/-- C6 witness: the claim applied to a core bag whose key "@temperature"
first appears with the numeric value "30". -/
theorem C6_witness :
    hmLookup (populate_attribute_map
      ({ other_attributes :=
          some [("@temperature", "30"), ("@status", "High")] } : Core) [])
      "@temperature" =
      some (if (parseU64 "30").isSome then AttributeType.number
            else AttributeType.text) :=
  C6_theorem Core _ _ [] "@temperature" "30" [] [("@status", "High")]
    rfl (by simp) rfl

/-- C7 counterexample: the claim's edge-flag biconditionals, read at the
core's identifier, fail on a full-grid model with non-contiguous
identifiers.  `gappedSys` is 1x3 with 3 = rows * columns cores whose
identifiers are {0, 1, 3}: the core with identifier 3 sits at position 2,
its derived neighbour record lacks the top neighbour, yet
3 / columns = 1 ≠ 0 - so "lacks top iff i / columns = 0" is false at
identifier i = 3 (the bottom, left and right biconditionals fail there
too). -/
theorem C7_counterexample :
    gappedSys.cores.length = gappedSys.rows * gappedSys.columns ∧
    gappedOut.cores[2]? = some { id := 3, router := { id := 2 } } ∧
    hmLookup gappedOut.connections 2 =
      some { left := some { id := some 1 } } ∧
    ¬ (({ left := some { id := some 1 } } : Neighbours).top = none ↔
        (3 : Nat) / gappedSys.columns = 0) :=
  ⟨rfl, rfl, rfl, fun hiff => absurd (hiff.mp rfl) (by decide)⟩

/-- C7 (amended): for a returned model of a full rows * columns grid, the
derived neighbour record at position i of the sorted core list - which is
the identifier of the core held there exactly when the identifiers are the
contiguous sequence 0..N-1 - lacks its top, bottom, left, right neighbour
exactly when i / columns = 0, i / columns = rows - 1, i % columns = 0,
i % columns = columns - 1, respectively. -/
theorem C7_theorem (m m' : ManycoreSystem) (h : parse_file m = some m')
    (hfull : m.cores.length = m.rows * m.columns) :
    ∀ i, i < m'.cores.length →
      hmLookup m'.connections i =
        some (neighboursFor m.columns (m.cores.length - 1) i) ∧
      ((neighboursFor m.columns (m.cores.length - 1) i).top = none ↔
        i / m.columns = 0) ∧
      ((neighboursFor m.columns (m.cores.length - 1) i).bottom = none ↔
        i / m.columns = m.rows - 1) ∧
      ((neighboursFor m.columns (m.cores.length - 1) i).left = none ↔
        i % m.columns = 0) ∧
      ((neighboursFor m.columns (m.cores.length - 1) i).right = none ↔
        i % m.columns = m.columns - 1) := by
  obtain ⟨hcne, hcols, -, -, hlen, -, hconn, -, -⟩ := parse_file_char m m' h
  intro i hi
  have hilen : i < m.cores.length := by omega
  have hR : m.rows ≠ 0 := by
    intro h0
    rw [h0] at hfull
    simp at hfull
    exact hcne hfull
  obtain ⟨e1, e2, e3, e4⟩ :=
    neighbours_edge_char m.rows m.columns (m.cores.length - 1) i hcols hR
      (by omega) (by omega)
  exact ⟨hconn i hilen, e1, e2, e3, e4⟩

/-- C7 witness: the amended claim applied to the contiguous 1x2 grid at
position 1 (the right-column, single-row core, whose identifier is 1). -/
theorem C7_witness :
    hmLookup grid12Out.connections 1 = some (neighboursFor 2 1 1) ∧
    ((neighboursFor 2 1 1).top = none ↔ 1 / 2 = 0) ∧
    ((neighboursFor 2 1 1).bottom = none ↔ 1 / 2 = 1 - 1) ∧
    ((neighboursFor 2 1 1).left = none ↔ 1 % 2 = 0) ∧
    ((neighboursFor 2 1 1).right = none ↔ 1 % 2 = 2 - 1) :=
  C7_theorem grid12 grid12Out rfl rfl 1 (by decide)

/-- C8: after `parse_file` succeeds, the core collection is sorted
ascending by core identifier, regardless of the document order. -/
theorem C8_theorem (m m' : ManycoreSystem) (h : parse_file m = some m') :
    List.Sorted (fun me other => me.id ≤ other.id) m'.cores :=
  parse_file_sorted m m' h

/-- C8 witness: the claim applied to the document whose cores appear in
order 2, 0, 1. -/
theorem C8_witness :
    List.Sorted (fun me other => me.id ≤ other.id) unsortedOut.cores :=
  C8_theorem unsortedSys unsortedOut rfl

/-- C9 counterexample: with an observed algorithm declared and a sink
present, the full computed schema is exactly a core registry
{"@id": Text, "@coordinates": Text}, an empty router registry, the
algorithm catalogue, the observed name and a boolean presence flag: there
is no channel registry, no pinned routing-algorithm key and no boolean
border-adjacency key anywhere (the only attribute kinds in the code are
Text and Number). -/
theorem C9_counterexample :
    (parse_file c9sys).map (fun m => m.configurable_attributes) =
      some { core := [("@id", AttributeType.text),
                      ("@coordinates", AttributeType.text)],
             router := [],
             algorithms := SUPPORTED_ALGORITHMS,
             observed_algorithm := some "RowFirst",
             sinks_sources := true } :=
  rfl

/-- C9 (amended): the pinned schema entries are exactly "@id" and
"@coordinates" in the core registry, both of fixed kind Text, inserted
before the scan and overriding inference (they survive every bag,
including a numeric "@id"); the algorithm catalogue and observed algorithm
are separate fields of the schema record, and no channel registry or
border-conditioned key exists. -/
theorem C9_theorem (m m' : ManycoreSystem) (h : parse_file m = some m') :
    hmLookup m'.configurable_attributes.core "@id" = some AttributeType.text ∧
    hmLookup m'.configurable_attributes.core "@coordinates" =
      some AttributeType.text ∧
    m'.configurable_attributes.algorithms = SUPPORTED_ALGORITHMS ∧
    m'.configurable_attributes.observed_algorithm = m.routing_algo := by
  obtain ⟨-, -, -, -, -, -, -, -, hca⟩ := parse_file_char m m' h
  rw [hca]
  exact ⟨workout_fold_core_preserves m'.cores _ "@id" _ rfl,
         workout_fold_core_preserves m'.cores _ "@coordinates" _ rfl,
         rfl, rfl⟩

/-- C9 witness: the amended claim applied to the document whose core bag
carries "@id" with the numeric value "42" - the recorded kind stays
Text. -/
theorem C9_witness :
    hmLookup idBagOut.configurable_attributes.core "@id" =
      some AttributeType.text ∧
    hmLookup idBagOut.configurable_attributes.core "@coordinates" =
      some AttributeType.text :=
  ⟨(C9_theorem idBagSys idBagOut rfl).1,
   (C9_theorem idBagSys idBagOut rfl).2.1⟩

/-- C10: the post-decode derivation is total exactly under the
precondition that the decoded core list is non-empty and the column count
is nonzero: under it every index access is in bounds and no arithmetic
step panics (the derivation returns a model); outside it, the `len - 1`
usize underflow (empty core list) or the modulo by a zero column count
makes the derivation panic (modelled as `none`). -/
theorem C10_theorem (m : ManycoreSystem) :
    (parse_file m).isSome ↔ (m.cores ≠ [] ∧ m.columns ≠ 0) := by
  constructor
  · intro hs
    obtain ⟨m', hm'⟩ := Option.isSome_iff_exists.mp hs
    obtain ⟨h1, h2, -, -, -, -, -, -, -⟩ := parse_file_char m m' hm'
    exact ⟨h1, h2⟩
  · rintro ⟨h1, h2⟩
    exact parse_file_total m h1 h2

end Manycore
